import Mathlib

/-!
Verification of the ssh-client-mcp session / command / SFTP core.

JavaScript strings are embedded as `List Char`, numbers as `Nat`/`Int`,
`undefined`-able fields as `Option`, and the asynchronous stream handlers as
explicit folds over the list of delivered events.  Every definition is
translated from the TypeScript source (`src/SSHExecutor.ts`,
`src/SessionManager.ts`, `src/SFTPOperations.ts` and friends); deviations,
where the behaviour belongs to a dependency rather than this repository, are
flagged in the corresponding doc comment.
-/

namespace SshMcp

/-- Strings of the embedded program: JavaScript strings as lists of chars. -/
abbrev Str := List Char

/-- `startsW pat s`: `s` begins with `pat` (helper for substring search). -/
def startsW : Str → Str → Bool
  | [], _ => true
  | _ :: _, [] => false
  | a :: pas, b :: bs => a == b && startsW pas bs

/-- JavaScript `String.prototype.includes`: `containsSub pat s` is true when
`pat` occurs contiguously inside `s`. -/
def containsSub (pat : Str) : Str → Bool
  | [] => pat.isEmpty
  | c :: rest => startsW pat (c :: rest) || containsSub pat rest

/-- Whitespace recognizer used by the embedding of JavaScript `trim()`. -/
def isWs (c : Char) : Bool :=
  c == ' ' || c == '\n' || c == '\t' || c == '\r'

/-- JavaScript `String.prototype.trim`: strip leading and trailing whitespace. -/
def trimStr (s : Str) : Str :=
  ((s.dropWhile isWs).reverse.dropWhile isWs).reverse

/-- JavaScript truthiness of an optional string: `undefined` and the empty
string are falsy, every other string truthy. -/
def jsTruthyStr : Option Str → Bool
  | none => false
  | some s => !s.isEmpty

/-- The single-quote character, `'` (written via its code point). -/
def quoteC : Char := Char.ofNat 39

/-- `sudoPassword.replace(/'/g, "'\\''")` from `SSHExecutor.executeSudoCommand`:
every single quote is replaced by quote, backslash, quote, quote. -/
def escapeQuotes : Str → Str
  | [] => []
  | c :: rest =>
      if c == quoteC then quoteC :: '\\' :: quoteC :: quoteC :: escapeQuotes rest
      else c :: escapeQuotes rest

/-- The wrapped command line built by `executeSudoCommand`:
`echo '<escaped pw>' | sudo -S <command>` when a (truthy) password is given,
plain `sudo <command>` otherwise. -/
def sudoCommandFor (sudoPassword : Option Str) (command : Str) : Str :=
  if jsTruthyStr sudoPassword then
    "echo ".toList ++ [quoteC] ++ escapeQuotes (sudoPassword.getD [])
      ++ [quoteC] ++ " | sudo -S ".toList ++ command
  else
    "sudo ".toList ++ command

/-- The prompt test of the sudo stdout handler:
`text.includes('password') || text.includes('Password')`. -/
def promptMatch (text : Str) : Bool :=
  containsSub "password".toList text || containsSub "Password".toList text

/-- State of the sudo stdout `data` handler: accumulated stdout, the
`passwordSent` flag, and the strings written back to the stream. -/
structure SudoStreamState where
  stdout : Str
  passwordSent : Bool
  writes : List Str
  deriving Repr, DecidableEq

/-- One stdout chunk of `executeSudoCommand`'s `data` handler
(`src/SSHExecutor.ts` lines 161-172): before the password has been sent, a
chunk matching the prompt test triggers `stream.write(sudoPassword + '\n')`
and is not appended to stdout; every other chunk is appended. -/
def sudoDataStep (sudoPassword : Option Str) (st : SudoStreamState)
    (text : Str) : SudoStreamState :=
  if !st.passwordSent && jsTruthyStr sudoPassword && promptMatch text then
    { st with passwordSent := true,
              writes := st.writes ++ [sudoPassword.getD [] ++ ['\n']] }
  else
    { st with stdout := st.stdout ++ text }

/-- Run the sudo stdout handler over the whole sequence of delivered chunks,
starting from the fresh state (`stdout = ''`, `passwordSent = false`). -/
def sudoStreamRun (sudoPassword : Option Str) (chunks : List Str) :
    SudoStreamState :=
  chunks.foldl (sudoDataStep sudoPassword) ⟨[], false, []⟩

/-- Scanner for the lazy regex tail `.+?:` (at least one non-newline
character, then the earliest colon): returns the remainder after the colon.
The boolean records whether at least one character has been consumed. -/
def findPromptColon : Str → Bool → Option Str
  | [], _ => none
  | c :: rest, seen =>
      if c == '\n' then none
      else if seen && c == ':' then some rest
      else findPromptColon rest true

theorem findPromptColon_length :
    ∀ (s : Str) (b : Bool) (t : Str), findPromptColon s b = some t →
      t.length < s.length := by
  intro s
  induction s with
  | nil => intro b t h; simp [findPromptColon] at h
  | cons c rest ih =>
    intro b t h
    rw [findPromptColon] at h
    split at h
    · exact absurd h (by simp)
    · split at h
      · cases h; simp
      · have := ih true t h
        simp; omega

/-- The fixed head of the `/\[sudo\] password for .+?:/` pattern. -/
def sudoPromptPat : Str := "[sudo] password for ".toList

/-- `stderr.replace(/\[sudo\] password for .+?:/g, '')`: left-to-right
removal of every occurrence of the prompt pattern (fixed head, then a lazy
run of non-newline characters up to the first colon). -/
def removeSudoPrompts : Str → Str
  | [] => []
  | c :: rest =>
      if startsW sudoPromptPat (c :: rest) then
        match h : findPromptColon ((c :: rest).drop sudoPromptPat.length) false with
        | some rest2 => removeSudoPrompts rest2
        | none => c :: removeSudoPrompts rest
      else c :: removeSudoPrompts rest
termination_by s => s.length
decreasing_by
  · have h1 := findPromptColon_length _ _ _ h
    have h2 : (List.drop sudoPromptPat.length (c :: rest)).length ≤
        (c :: rest).length := by simp
    simp at h1 h2 ⊢
    omega
  · simp
  · simp

/-- `s.replace(/<p0 :: pt>/g, '')` for a fixed literal pattern: left-to-right,
non-overlapping removal of every occurrence. -/
def removeAllSub (p0 : Char) (pt : Str) : Str → Str
  | [] => []
  | c :: rest =>
      if startsW (p0 :: pt) (c :: rest) then removeAllSub p0 pt (rest.drop pt.length)
      else c :: removeAllSub p0 pt rest
termination_by s => s.length
decreasing_by
  · simp; omega
  · simp

/-- The stderr clean-up of `executeSudoCommand`'s close handler: strip
`[sudo] password for …:` prompts, strip `Password:`, then trim. -/
def cleanStderr (stderr : Str) : Str :=
  trimStr (removeAllSub 'P' "assword:".toList (removeSudoPrompts stderr))

/-- Structured command result (`CommandResult` of `src/types.ts`). -/
structure CommandResult where
  stdout : Str
  stderr : Str
  exitCode : Option Int
  signal : Option Str
  deriving Repr, DecidableEq

/-- The value resolved by `executeSudoCommand` when the stream closes with
`(code, sig)` after delivering `stdoutChunks` and `stderrChunks`: stdout is
accumulated by the `data` handler (password-prompt chunks suppressed) and
trimmed; stderr is concatenated, scrubbed of prompt texts, and trimmed. -/
def executeSudoClose (sudoPassword : Option Str)
    (stdoutChunks stderrChunks : List Str) (code : Int) (sig : Option Str) :
    CommandResult :=
  { stdout := trimStr (sudoStreamRun sudoPassword stdoutChunks).stdout
    stderr := cleanStderr (stderrChunks.foldl (· ++ ·) [])
    exitCode := some code
    signal := sig }

/-- Remove the first list element satisfying `p`, keeping everything else.
Spec-side description of which chunk the sudo handler suppresses. -/
def dropFirstMatching (p : Str → Bool) : List Str → List Str
  | [] => []
  | c :: rest => if p c then rest else c :: dropFirstMatching p rest

theorem dropFirstMatching_of_none (p : Str → Bool) :
    ∀ (l : List Str), (∀ x ∈ l, p x = false) → dropFirstMatching p l = l := by
  intro l
  induction l with
  | nil => intro _; rfl
  | cons c cs ih =>
    intro h
    have hc := h c (by simp)
    simp [dropFirstMatching, hc, ih fun x hx => h x (by simp [hx])]

theorem sudoStep_sent (pw' : Option Str) (st : SudoStreamState) (c : Str)
    (h : st.passwordSent = true) :
    sudoDataStep pw' st c = { st with stdout := st.stdout ++ c } := by
  simp [sudoDataStep, h]

theorem sudoFold_sent (pw' : Option Str) :
    ∀ (chunks : List Str) (st : SudoStreamState), st.passwordSent = true →
      List.foldl (sudoDataStep pw') st chunks =
        { st with stdout := st.stdout ++ chunks.flatten } := by
  intro chunks
  induction chunks with
  | nil => intro st h; simp
  | cons c cs ih =>
    intro st h
    rw [List.foldl_cons, sudoStep_sent pw' st c h, ih _ (by simp [h])]
    simp

theorem sudoFold_go (pw : Str) (hpw : pw ≠ []) :
    ∀ (chunks : List Str) (acc : Str) (w : List Str),
      List.foldl (sudoDataStep (some pw)) ⟨acc, false, w⟩ chunks =
        if chunks.any promptMatch then
          ⟨acc ++ (dropFirstMatching promptMatch chunks).flatten, true,
            w ++ [pw ++ ['\n']]⟩
        else ⟨acc ++ chunks.flatten, false, w⟩ := by
  have htru : jsTruthyStr (some pw) = true := by
    cases pw with
    | nil => exact absurd rfl hpw
    | cons a as => simp [jsTruthyStr]
  intro chunks
  induction chunks with
  | nil => intro acc w; simp [dropFirstMatching]
  | cons c cs ih =>
    intro acc w
    by_cases hm : promptMatch c
    · have hstep : sudoDataStep (some pw) ⟨acc, false, w⟩ c =
          ⟨acc, true, w ++ [pw ++ ['\n']]⟩ := by
        simp [sudoDataStep, hm, htru]
      rw [List.foldl_cons, hstep, sudoFold_sent (some pw) cs _ rfl]
      simp [List.any_cons, hm, dropFirstMatching]
    · have hstep : sudoDataStep (some pw) ⟨acc, false, w⟩ c =
          ⟨acc ++ c, false, w⟩ := by
        simp [sudoDataStep, hm]
      rw [List.foldl_cons, hstep, ih]
      simp only [List.any_cons, hm, Bool.false_or, dropFirstMatching,
        if_neg (by simp [hm] : ¬ promptMatch c = true)]
      split <;> simp [List.append_assoc]

/-- C3: refuted on the code — when the pseudo-terminal echoes the wrapped
command line `echo 'hunter2' | sudo -S whoami` as a stdout chunk, that chunk
contains neither `password` nor `Password`, so the data handler appends it to
stdout verbatim, and the returned result's stdout contains the literal
password `hunter2`; the prompt chunk `Password:` is suppressed and the
password is written to the stream, so this is the normal interactive flow. -/
theorem executeSudoCommand_password_leaks :
    containsSub "hunter2".toList
      (executeSudoClose (some "hunter2".toList)
        [sudoCommandFor (some "hunter2".toList) "whoami".toList,
         "Password:".toList, "root".toList] [] 0 none).stdout = true
    ∧ (sudoStreamRun (some "hunter2".toList)
        [sudoCommandFor (some "hunter2".toList) "whoami".toList,
         "Password:".toList, "root".toList]).passwordSent = true
    ∧ (sudoStreamRun (some "hunter2".toList)
        [sudoCommandFor (some "hunter2".toList) "whoami".toList,
         "Password:".toList, "root".toList]).writes
        = ["hunter2\n".toList] := by
  decide

/-- C4 counterexample: the chunk `PASSWORD:` contains `password` under a
case-insensitive comparison (the claim's trigger condition), yet the data
handler neither writes the password nor suppresses the chunk — the code
compares only against the two exact spellings `password` and `Password`. -/
theorem sudo_prompt_case_cex :
    containsSub "password".toList ("PASSWORD:".toList.map Char.toLower) = true
    ∧ sudoStreamRun (some "pw1".toList) ["PASSWORD:".toList]
        = ⟨"PASSWORD:".toList, false, []⟩ := by
  decide

/-- C4 (amended): in `executeSudoCommand` with a truthy password, the first
stdout chunk containing the substring `password` or `Password` (these two
exact spellings, not an arbitrary capitalization) while the password is
unsent triggers exactly one write of the password followed by a newline and
is excluded from the captured stdout; every other chunk is appended, so the
captured stdout is the concatenation of all chunks minus that first matching
chunk, and the password is written iff some chunk matches. -/
theorem sudo_prompt_handling (pw : Str) (hpw : pw ≠ []) (chunks : List Str) :
    (sudoStreamRun (some pw) chunks).stdout
        = (dropFirstMatching promptMatch chunks).flatten
    ∧ (sudoStreamRun (some pw) chunks).writes
        = (if chunks.any promptMatch then [pw ++ ['\n']] else [])
    ∧ (sudoStreamRun (some pw) chunks).passwordSent = chunks.any promptMatch := by
  unfold sudoStreamRun
  rw [sudoFold_go pw hpw]
  split <;> rename_i hany
  · simp_all
  · simp only [List.any_eq_true, not_exists, not_and] at hany
    have hnone : ∀ x ∈ chunks, promptMatch x = false := by
      intro x hx
      exact Bool.eq_false_iff.mpr fun hc => hany x hx hc
    have hanyf : chunks.any promptMatch = false := by
      simp only [List.any_eq_false]
      intro x hx
      exact Bool.eq_false_iff.mp (hnone x hx)
    simp [dropFirstMatching_of_none promptMatch chunks hnone, hanyf]

/-- Witness for C4's amended theorem at a concrete password and chunk list. -/
theorem sudo_prompt_handling_witness :
    (sudoStreamRun (some "pw1".toList) ["Password:".toList, "ok".toList]).stdout
        = (dropFirstMatching promptMatch ["Password:".toList, "ok".toList]).flatten
    ∧ (sudoStreamRun (some "pw1".toList) ["Password:".toList, "ok".toList]).writes
        = (if ["Password:".toList, "ok".toList].any promptMatch
            then ["pw1".toList ++ ['\n']] else [])
    ∧ (sudoStreamRun (some "pw1".toList) ["Password:".toList, "ok".toList]).passwordSent
        = ["Password:".toList, "ok".toList].any promptMatch :=
  sudo_prompt_handling "pw1".toList (by decide) ["Password:".toList, "ok".toList]

/-! ### Command execution engine (`executeCommand` / `executeWithInput`)

Each call installs `data`, `stderr.data`, `close` and `error` handlers on the
execution stream and races them against a timeout timer.  The embedding
replays the delivered events as a fold: the promise settles at the first
settling event, but — exactly as in the source — the handlers keep running
for events delivered after settlement. -/

/-- Session fields mutated by the execution engine (`commandCount` and
`lastActivity` of `SSHSession`). -/
structure SessionCounters where
  cmdCount : Nat
  lastActivity : Nat
  deriving Repr, DecidableEq

/-- The ways `executeCommand` / `executeWithInput` can fail. -/
inductive ExecErrKind where
  /-- the timeout timer fired before the stream settled the promise -/
  | timeoutErr
  /-- the stream emitted an `error` event -/
  | streamErr
  /-- `client.exec` reported an error in its callback -/
  | execCbErr
  deriving Repr, DecidableEq

/-- Settlement value of the execution promise. -/
inductive ExecOutcome where
  | ok (r : CommandResult)
  | err (e : ExecErrKind)
  deriving Repr, DecidableEq

/-- Events delivered to the handlers of an execution stream, in order. -/
inductive ExecEv where
  /-- a stdout chunk (`stream.on('data')`) -/
  | dataEv (c : Str)
  /-- a stderr chunk (`stream.stderr.on('data')`) -/
  | errDataEv (c : Str)
  /-- the stream's `error` event -/
  | errorEv
  /-- the stream's `close` event with exit code and signal -/
  | closeEv (code : Int) (sig : Option Str)
  /-- the timeout timer firing (only possible while not cleared) -/
  | timeoutEv
  deriving Repr, DecidableEq

/-- Running state of one `executeCommand` call: accumulated output, the
session counters being mutated, the promise settlement (first settle wins,
later settles are no-ops), whether `clearTimeout` ran, and — as a pure
observer — a snapshot of the counters taken at the moment of settlement. -/
structure ExecRunState where
  stdout : Str
  stderr : Str
  counters : SessionCounters
  settled : Option ExecOutcome
  timeoutCleared : Bool
  snapshot : Option SessionCounters
  deriving Repr, DecidableEq

/-- One event of `executeCommand`'s handlers (`src/SSHExecutor.ts` lines
35-62): `data`/stderr-`data` append; `error` clears the timer and rejects if
unsettled; `close` clears the timer, increments `commandCount`, refreshes
`lastActivity`, and resolves the trimmed result if unsettled — the counter
mutations happen even when the promise has already settled; the timer, when
not yet cleared, rejects with a timeout error if unsettled. -/
def execStep (now : Nat) (st : ExecRunState) : ExecEv → ExecRunState
  | .dataEv c => { st with stdout := st.stdout ++ c }
  | .errDataEv c => { st with stderr := st.stderr ++ c }
  | .errorEv =>
      let st1 := { st with timeoutCleared := true }
      match st1.settled with
      | some _ => st1
      | none => { st1 with settled := some (.err .streamErr),
                           snapshot := some st1.counters }
  | .closeEv code sig =>
      let c1 : SessionCounters := ⟨st.counters.cmdCount + 1, now⟩
      let st1 := { st with timeoutCleared := true, counters := c1 }
      match st1.settled with
      | some _ => st1
      | none => { st1 with
                  settled := some (.ok ⟨trimStr st1.stdout, trimStr st1.stderr,
                                        some code, sig⟩),
                  snapshot := some st1.counters }
  | .timeoutEv =>
      if st.timeoutCleared then st
      else
        match st.settled with
        | some _ => st
        | none => { st with settled := some (.err .timeoutErr),
                            snapshot := some st.counters }

/-- Fold the handlers over the whole delivered event sequence. -/
def runExecEvents (now : Nat) (s0 : SessionCounters) (evs : List ExecEv) :
    ExecRunState :=
  evs.foldl (execStep now) ⟨[], [], s0, none, false, none⟩

/-- `SSHExecutor.executeCommand` (`src/SSHExecutor.ts` lines 10-65): when
`client.exec`'s callback reports an error the promise rejects at once and no
handlers are installed; otherwise the handlers process the stream events. -/
def executeCommandRun (now : Nat) (s0 : SessionCounters) (execCbErr : Bool)
    (evs : List ExecEv) : ExecRunState :=
  if execCbErr then
    ⟨[], [], s0, some (.err .execCbErr), true, some s0⟩
  else runExecEvents now s0 evs

/-- `SSHExecutor.executeWithInput` (`src/SSHExecutor.ts` lines 189-249):
identical wiring to `executeCommand` except that `input` is written to the
stream and end-of-input signalled before the events arrive; the write only
touches the remote stream, never the session fields, so `input` does not
enter the state. -/
def executeWithInputRun (now : Nat) (s0 : SessionCounters) (_input : Str)
    (execCbErr : Bool) (evs : List ExecEv) : ExecRunState :=
  if execCbErr then
    ⟨[], [], s0, some (.err .execCbErr), true, some s0⟩
  else runExecEvents now s0 evs

/-- Number of `close` events in a delivered sequence. -/
def countClose : List ExecEv → Nat
  | [] => 0
  | .closeEv _ _ :: rest => countClose rest + 1
  | _ :: rest => countClose rest

/-- Induction invariant tying an execution state to the number of `close`
events processed so far. -/
def ExecInv (now : Nat) (s0 : SessionCounters) (st : ExecRunState)
    (closes : Nat) : Prop :=
  st.counters.cmdCount = s0.cmdCount + closes
  ∧ st.counters.lastActivity =
      (if closes = 0 then s0.lastActivity else now)
  ∧ (st.settled = none → closes = 0 ∧ st.snapshot = none)
  ∧ (∀ e, st.settled = some (.err e) → st.snapshot = some s0)

theorem execStep_inv (now : Nat) (s0 : SessionCounters) (st : ExecRunState)
    (closes : Nat) (ev : ExecEv) (h : ExecInv now s0 st closes) :
    ExecInv now s0 (execStep now st ev)
      (closes + countClose [ev]) := by
  obtain ⟨h1, h2, h3, h4⟩ := h
  cases ev with
  | dataEv c => exact ⟨h1, h2, fun hs => h3 hs, fun e hs => h4 e hs⟩
  | errDataEv c => exact ⟨h1, h2, fun hs => h3 hs, fun e hs => h4 e hs⟩
  | errorEv =>
    simp only [execStep, countClose, Nat.add_zero]
    cases hs : st.settled with
    | some o => exact ⟨h1, h2, by simp, fun e he => h4 e (hs ▸ he)⟩
    | none =>
      obtain ⟨hc0, hsnap⟩ := h3 hs
      subst hc0
      simp only [Nat.add_zero] at h1
      simp at h2
      have hcs : st.counters = s0 := by
        have hh : st.counters = ⟨st.counters.cmdCount, st.counters.lastActivity⟩ := rfl
        rw [hh, h1, h2]
      exact ⟨by simp [h1], by simp [h2], by simp, fun e he => by simp [hcs]⟩
  | closeEv code sig =>
    simp only [execStep, countClose]
    cases hs : st.settled with
    | some o =>
      refine ⟨by simp [h1]; omega, by simp, by simp, fun e he => ?_⟩
      simp only at he
      exact h4 e (hs ▸ he)
    | none =>
      obtain ⟨hc0, hsnap⟩ := h3 hs
      subst hc0
      exact ⟨by simp [h1], by simp, by simp, by simp⟩
  | timeoutEv =>
    simp only [execStep, countClose, Nat.add_zero]
    by_cases hcl : st.timeoutCleared
    · simp only [hcl, if_true]
      exact ⟨h1, h2, h3, h4⟩
    · simp only [hcl, if_false]
      cases hs : st.settled with
      | some o => exact ⟨h1, h2, by simp [hs], fun e he => h4 e (hs ▸ he)⟩
      | none =>
        obtain ⟨hc0, hsnap⟩ := h3 hs
        subst hc0
        simp only [Nat.add_zero] at h1
        simp at h2
        have hcs : st.counters = s0 := by
          have hh : st.counters = ⟨st.counters.cmdCount, st.counters.lastActivity⟩ := rfl
          rw [hh, h1, h2]
        exact ⟨by simp [h1], by simp [h2], by simp, fun e he => by simp [hcs]⟩

theorem runExec_inv (now : Nat) (s0 : SessionCounters) :
    ∀ (evs : List ExecEv) (st : ExecRunState) (closes : Nat),
      ExecInv now s0 st closes →
      ExecInv now s0 (evs.foldl (execStep now) st) (closes + countClose evs) := by
  intro evs
  induction evs with
  | nil => intro st closes h; simpa [countClose] using h
  | cons ev rest ih =>
    intro st closes h
    have hstep := execStep_inv now s0 st closes ev h
    have := ih (execStep now st ev) (closes + countClose [ev]) hstep
    have harr : closes + countClose [ev] + countClose rest
        = closes + countClose (ev :: rest) := by
      cases ev <;> simp [countClose] <;> omega
    rw [List.foldl_cons]
    exact harr ▸ this

/-- C10 counterexample: the stream emits `error` (the call rejects with a
stream error) and then its `close` event arrives; the close handler — whose
listener is never removed — still increments `commandCount` and refreshes
`lastActivity`, so a failed call does mutate the session fields. -/
theorem exec_failure_mutates_cex :
    (executeCommandRun 200 ⟨5, 100⟩ false
        [.errorEv, .closeEv 0 none]).settled = some (.err .streamErr)
    ∧ (executeCommandRun 200 ⟨5, 100⟩ false
        [.errorEv, .closeEv 0 none]).counters = ⟨6, 200⟩ := by
  decide

/-- C10 (amended): in `executeCommand` and `executeWithInput`, the session's
`commandCount` and `lastActivity` are untouched at the moment a failure is
reported (the settlement snapshot equals the pre-call values, because a
`close` would have resolved the promise first); the fields are mutated
exactly by the `close` handler — `commandCount` grows by the number of close
events processed and `lastActivity` is refreshed iff one occurs — even when
the close event arrives after a timeout or stream error already rejected the
call. -/
theorem exec_session_counter_discipline (now : Nat) (s0 : SessionCounters)
    (execCbErr : Bool) (evs : List ExecEv) (input : Str) :
    (∀ e, (executeCommandRun now s0 execCbErr evs).settled = some (.err e) →
        (executeCommandRun now s0 execCbErr evs).snapshot = some s0)
    ∧ (executeCommandRun now s0 execCbErr evs).counters.cmdCount
        = s0.cmdCount + countClose (if execCbErr then [] else evs)
    ∧ (executeCommandRun now s0 execCbErr evs).counters.lastActivity
        = (if countClose (if execCbErr then [] else evs) = 0
            then s0.lastActivity else now)
    ∧ executeWithInputRun now s0 input execCbErr evs
        = executeCommandRun now s0 execCbErr evs := by
  have base : ExecInv now s0 ⟨[], [], s0, none, false, none⟩ 0 :=
    ⟨rfl, by simp, fun _ => ⟨rfl, rfl⟩, by simp⟩
  by_cases hc : execCbErr = true
  · simp only [executeCommandRun, executeWithInputRun, hc, if_pos rfl]
    exact ⟨fun e _ => rfl, by simp [countClose], by simp [countClose], trivial⟩
  · simp only [executeCommandRun, executeWithInputRun, hc, if_neg, if_false,
      Bool.false_eq_true]
    obtain ⟨i1, i2, i3, i4⟩ :=
      runExec_inv now s0 evs ⟨[], [], s0, none, false, none⟩ 0 base
    rw [Nat.zero_add] at i1 i2
    exact ⟨fun e he => i4 e he, i1, i2, trivial⟩

/-- Witness for C10's amended theorem: at the counterexample's event list the
failure snapshot equals the pre-call fields while the final counter has
grown by the one close event. -/
theorem exec_session_counter_discipline_witness :
    (executeCommandRun 200 ⟨5, 100⟩ false
        [.errorEv, .closeEv 0 none]).snapshot = some ⟨5, 100⟩
    ∧ (executeCommandRun 200 ⟨5, 100⟩ false
        [.errorEv, .closeEv 0 none]).counters.cmdCount
        = 5 + countClose [.errorEv, .closeEv 0 none] :=
  ⟨(exec_session_counter_discipline 200 ⟨5, 100⟩ false
      [.errorEv, .closeEv 0 none] []).1 .streamErr (by decide),
   (exec_session_counter_discipline 200 ⟨5, 100⟩ false
      [.errorEv, .closeEv 0 none] []).2.1⟩

/-! ### Session registry (`SessionManager`)

The registry's map is embedded as an insertion-ordered list (JavaScript
`Map` iterates in insertion order), uuid generation as a fresh-id counter,
and the network as two oracles: the outcome of `connectClient` and of
`initSFTP` (`none` = success, `some msg` = failure with that message).  The
credential fields beyond (host, port, username) only feed those oracles, so
they are not carried in the state. -/

/-- Target identity of `SSHCredentials` (`src/types.ts`): host, optional
port, username.  The authentication fields are consumed only by the connect
oracle and are omitted. -/
structure SSHCredentials where
  host : Str
  port : Option Nat
  username : Str
  deriving Repr, DecidableEq

/-- JavaScript `credentials.port || 22`: `undefined` and `0` are falsy. -/
def portOrDefault : Option Nat → Nat
  | none => 22
  | some 0 => 22
  | some n => n

/-- A registered session (`SSHSession` of `src/types.ts`); the connection
and SFTP handles are abstracted to their presence. -/
structure SSHSession where
  id : Nat
  credentials : SSHCredentials
  sftp : Bool
  isConnected : Bool
  lastActivity : Nat
  createdAt : Nat
  commandCount : Nat
  deriving Repr, DecidableEq

/-- The registry's mutable state: the session map in insertion order and
the next fresh identifier (standing in for `uuidv4`). -/
structure RegistryState where
  sessions : List SSHSession
  nextId : Nat
  deriving Repr, DecidableEq

/-- `SessionManager.findExistingSession` (`src/SessionManager.ts` lines
292-303): the first session whose stored raw credentials satisfy
`host === host && port === (incoming.port || 22) && username === username`.
Note the asymmetry kept from the source: the stored port is compared raw
(`undefined` never equals a number) while only the incoming port is
defaulted. -/
def findExistingSession (sessions : List SSHSession)
    (credentials : SSHCredentials) : Option SSHSession :=
  sessions.find? fun s =>
    s.credentials.host == credentials.host
    && s.credentials.port == some (portOrDefault credentials.port)
    && s.credentials.username == credentials.username

/-- Refresh `lastActivity` of the session with identifier `sid`. -/
def touchSession (sessions : List SSHSession) (sid : Nat) (now : Nat) :
    List SSHSession :=
  sessions.map fun s => if s.id == sid then { s with lastActivity := now } else s

/-- Outcome of a `createSession` call. -/
inductive CreateOutcome where
  | okId (id : Nat)
  | errMsg (m : Str)
  deriving Repr, DecidableEq

/-- Observable result of one `createSession` call: the outcome, the registry
state afterwards, how many new connections were attempted, and whether
`client.end()` was called on a partially-acquired handle. -/
structure CreateResult where
  result : CreateOutcome
  state : RegistryState
  connectAttempts : Nat
  endCalled : Bool
  deriving Repr, DecidableEq

/-- The fresh-session path of `createSession` (`src/SessionManager.ts` lines
36-73): fail on the session ceiling (the source interpolates the ceiling
into the message; the number is elided here); otherwise connect and open
SFTP, registering the session only after both succeed; on either failure
call `client.end()` and propagate the wrapped message, leaving the map
unchanged. -/
def createFresh (maxSessions now : Nat) (st : RegistryState)
    (credentials : SSHCredentials) (connectOutcome sftpOutcome : Option Str) :
    CreateResult :=
  if st.sessions.length ≥ maxSessions then
    { result := .errMsg "Maximum session limit reached. Please close some sessions.".toList
      state := st, connectAttempts := 0, endCalled := false }
  else
    match connectOutcome with
    | some m =>
        { result := .errMsg ("Failed to create SSH session: ".toList ++ m)
          state := st, connectAttempts := 1, endCalled := true }
    | none =>
        match sftpOutcome with
        | some m =>
            { result := .errMsg ("Failed to create SSH session: ".toList ++ m)
              state := st, connectAttempts := 1, endCalled := true }
        | none =>
            let s : SSHSession :=
              { id := st.nextId, credentials := credentials, sftp := true,
                isConnected := true, lastActivity := now, createdAt := now,
                commandCount := 0 }
            { result := .okId st.nextId
              state := { sessions := st.sessions ++ [s], nextId := st.nextId + 1 }
              connectAttempts := 1, endCalled := false }

/-- `SessionManager.createSession` (`src/SessionManager.ts` lines 28-74):
reuse a matching connected session (refreshing its activity timestamp,
opening no connection); otherwise go through the fresh-session path. -/
def createSession (maxSessions now : Nat) (st : RegistryState)
    (credentials : SSHCredentials) (connectOutcome sftpOutcome : Option Str) :
    CreateResult :=
  match findExistingSession st.sessions credentials with
  | some s =>
      if s.isConnected then
        { result := .okId s.id
          state := { st with sessions := touchSession st.sessions s.id now }
          connectAttempts := 0, endCalled := false }
      else createFresh maxSessions now st credentials connectOutcome sftpOutcome
  | none => createFresh maxSessions now st credentials connectOutcome sftpOutcome

/-- C1: refuted on the code — two `createSession` calls with identical
credentials whose port is left to default to 22 never share a session: the
stored raw port (`undefined`) is compared against the normalized incoming
port (`22`), the lookup misses, and the second call opens a fresh
connection and returns a new identifier, even though the first session is
still connected. -/
theorem createSession_default_port_no_reuse :
    (createSession 100 1000 ⟨[], 0⟩ ⟨"h".toList, none, "u".toList⟩
        none none).result = .okId 0
    ∧ ((createSession 100 1000 ⟨[], 0⟩ ⟨"h".toList, none, "u".toList⟩
        none none).state.sessions.map fun s => s.isConnected) = [true]
    ∧ (createSession 100 2000
        (createSession 100 1000 ⟨[], 0⟩ ⟨"h".toList, none, "u".toList⟩
          none none).state
        ⟨"h".toList, none, "u".toList⟩ none none).result = .okId 1
    ∧ (createSession 100 2000
        (createSession 100 1000 ⟨[], 0⟩ ⟨"h".toList, none, "u".toList⟩
          none none).state
        ⟨"h".toList, none, "u".toList⟩ none none).connectAttempts = 1 := by
  decide

/-- C7: on every `createSession` call that reaches the connect/SFTP stage
(no connected session is reused, the ceiling is not hit) and in which
authentication or SFTP initialization fails, the call returns an error, the
registry's session map is unchanged, and `client.end()` was called on the
partially-acquired handle. -/
theorem createSession_failure_clean (maxSessions now : Nat)
    (st : RegistryState) (credentials : SSHCredentials)
    (connectOutcome sftpOutcome : Option Str)
    (hnoreuse : ∀ s ∈ findExistingSession st.sessions credentials,
        s.isConnected = false)
    (hcap : st.sessions.length < maxSessions)
    (hfail : connectOutcome ≠ none ∨ sftpOutcome ≠ none) :
    (∃ m, (createSession maxSessions now st credentials
        connectOutcome sftpOutcome).result = .errMsg m)
    ∧ (createSession maxSessions now st credentials
        connectOutcome sftpOutcome).state = st
    ∧ (createSession maxSessions now st credentials
        connectOutcome sftpOutcome).endCalled = true := by
  have hfresh : createSession maxSessions now st credentials
      connectOutcome sftpOutcome
      = createFresh maxSessions now st credentials connectOutcome sftpOutcome := by
    unfold createSession
    cases hf : findExistingSession st.sessions credentials with
    | none => rfl
    | some s =>
        have := hnoreuse s (by simp [hf])
        simp [this]
  rw [hfresh]
  unfold createFresh
  rw [if_neg (by omega)]
  cases hc : connectOutcome with
  | some m => exact ⟨⟨_, rfl⟩, rfl, rfl⟩
  | none =>
      cases hs : sftpOutcome with
      | some m => exact ⟨⟨_, rfl⟩, rfl, rfl⟩
      | none =>
          exfalso
          rcases hfail with h | h
          · exact h hc
          · exact h hs

/-- Witness for C7 at a concrete failing connect outcome. -/
theorem createSession_failure_clean_witness :
    (∃ m, (createSession 100 1000 ⟨[], 0⟩ ⟨"h".toList, none, "u".toList⟩
        (some "auth failed".toList) none).result = .errMsg m)
    ∧ (createSession 100 1000 ⟨[], 0⟩ ⟨"h".toList, none, "u".toList⟩
        (some "auth failed".toList) none).state = ⟨[], 0⟩
    ∧ (createSession 100 1000 ⟨[], 0⟩ ⟨"h".toList, none, "u".toList⟩
        (some "auth failed".toList) none).endCalled = true :=
  createSession_failure_clean 100 1000 ⟨[], 0⟩ ⟨"h".toList, none, "u".toList⟩
    (some "auth failed".toList) none (by simp [findExistingSession])
    (by simp) (by simp)

/-! ### SFTP file operations (`SFTPOperations`) -/

/-- File type mask from `stat.h` (`src/SFTPOperations.ts` line 7). -/
def S_IFMT : Nat := 0o170000

/-- Regular-file type constant. -/
def S_IFREG : Nat := 0o100000

/-- Directory type constant. -/
def S_IFDIR : Nat := 0o040000

/-- Symbolic-link type constant. -/
def S_IFLNK : Nat := 0o120000

/-- `SFTPOperations.isDirectoryMode`: `(mode & S_IFMT) === S_IFDIR`. -/
def isDirectoryMode (mode : Nat) : Bool := Nat.land mode S_IFMT == S_IFDIR

/-- `SFTPOperations.isFileMode`: `(mode & S_IFMT) === S_IFREG`. -/
def isFileMode (mode : Nat) : Bool := Nat.land mode S_IFMT == S_IFREG

/-- `SFTPOperations.isSymlinkMode`: `(mode & S_IFMT) === S_IFLNK`. -/
def isSymlinkMode (mode : Nat) : Bool := Nat.land mode S_IFMT == S_IFLNK

/-- Modelled from the spec: the `Stats.isDirectory` / `isFile` /
`isSymbolicLink` helpers used by `statsToFileInfo` live in the `ssh2`
dependency, not in this repository; per the spec's mode-bit classification
(§4.3), a file-type field is masked out of the permission word and compared
against the fixed type constants. -/
def ssh2StatsIsDirectory (mode : Nat) : Bool := Nat.land mode S_IFMT == S_IFDIR

/-- Modelled from the spec: `ssh2` `Stats.isFile`; see
`ssh2StatsIsDirectory`. -/
def ssh2StatsIsFile (mode : Nat) : Bool := Nat.land mode S_IFMT == S_IFREG

/-- Modelled from the spec: `ssh2` `Stats.isSymbolicLink`; see
`ssh2StatsIsDirectory`. -/
def ssh2StatsIsSymbolicLink (mode : Nat) : Bool := Nat.land mode S_IFMT == S_IFLNK

/-- `ssh2` `Stats` as consumed by `statsToFileInfo`: all fields present. -/
structure Ssh2Stats where
  mode : Nat
  size : Nat
  uid : Nat
  gid : Nat
  atime : Nat
  mtime : Nat
  deriving Repr, DecidableEq

/-- `ssh2` `Attributes` as consumed by `attrsToFileInfo`: every field may be
absent. -/
structure Ssh2Attributes where
  mode : Option Nat
  size : Option Nat
  uid : Option Nat
  gid : Option Nat
  atime : Option Nat
  mtime : Option Nat
  deriving Repr, DecidableEq

/-- `FileInfo` of `src/types.ts`; the two `Date` fields are kept as their
millisecond timestamps. -/
structure FileInfo where
  filename : Str
  longname : Str
  isDirectory : Bool
  isFile : Bool
  isSymbolicLink : Bool
  size : Nat
  permissions : Nat
  owner : Nat
  group : Nat
  accessTime : Nat
  modifyTime : Nat
  deriving Repr, DecidableEq

/-- JavaScript `a || b` on an optional string: `undefined` and the empty
string fall through to `b`. -/
def jsOrStr : Option Str → Str → Str
  | none, b => b
  | some s, b => if s.isEmpty then b else s

/-- `SFTPOperations.statsToFileInfo` (`src/SFTPOperations.ts` lines 50-64). -/
def statsToFileInfo (filename : Str) (stats : Ssh2Stats)
    (longname : Option Str) : FileInfo :=
  { filename := filename
    longname := jsOrStr longname filename
    isDirectory := ssh2StatsIsDirectory stats.mode
    isFile := ssh2StatsIsFile stats.mode
    isSymbolicLink := ssh2StatsIsSymbolicLink stats.mode
    size := stats.size
    permissions := stats.mode
    owner := stats.uid
    group := stats.gid
    accessTime := stats.atime * 1000
    modifyTime := stats.mtime * 1000 }

/-- `SFTPOperations.attrsToFileInfo` (`src/SFTPOperations.ts` lines 69-84):
`mode = attrs.mode ?? 0` and the local mask helpers. -/
def attrsToFileInfo (filename : Str) (attrs : Ssh2Attributes)
    (longname : Option Str) : FileInfo :=
  let mode := attrs.mode.getD 0
  { filename := filename
    longname := jsOrStr longname filename
    isDirectory := isDirectoryMode mode
    isFile := isFileMode mode
    isSymbolicLink := isSymlinkMode mode
    size := attrs.size.getD 0
    permissions := mode
    owner := attrs.uid.getD 0
    group := attrs.gid.getD 0
    accessTime := attrs.atime.getD 0 * 1000
    modifyTime := attrs.mtime.getD 0 * 1000 }

/-- C9: the stat-ingestion path and the directory-listing ingestion path
classify identically on the same bitmask, and whenever the masked type
field equals one of the three type constants exactly one of the three
classifications holds. -/
theorem fileinfo_classification_agrees (filename : Str) (ln : Option Str)
    (stats : Ssh2Stats) (attrs : Ssh2Attributes)
    (hmode : attrs.mode = some stats.mode) :
    ((statsToFileInfo filename stats ln).isDirectory
        = (attrsToFileInfo filename attrs ln).isDirectory
      ∧ (statsToFileInfo filename stats ln).isFile
        = (attrsToFileInfo filename attrs ln).isFile
      ∧ (statsToFileInfo filename stats ln).isSymbolicLink
        = (attrsToFileInfo filename attrs ln).isSymbolicLink)
    ∧ (Nat.land stats.mode S_IFMT = S_IFDIR ∨ Nat.land stats.mode S_IFMT = S_IFREG
        ∨ Nat.land stats.mode S_IFMT = S_IFLNK →
       (statsToFileInfo filename stats ln).isDirectory.toNat
         + (statsToFileInfo filename stats ln).isFile.toNat
         + (statsToFileInfo filename stats ln).isSymbolicLink.toNat = 1) := by
  constructor
  · refine ⟨?_, ?_, ?_⟩ <;>
      simp [statsToFileInfo, attrsToFileInfo, hmode, ssh2StatsIsDirectory,
        ssh2StatsIsFile, ssh2StatsIsSymbolicLink, isDirectoryMode, isFileMode,
        isSymlinkMode]
  · intro h
    rcases h with h | h | h <;>
      simp only [S_IFMT, S_IFDIR, S_IFREG, S_IFLNK] at h <;>
      simp [statsToFileInfo, ssh2StatsIsDirectory, ssh2StatsIsFile,
        ssh2StatsIsSymbolicLink, S_IFMT, S_IFDIR, S_IFREG, S_IFLNK, h]

/-- Witness for C9 at a directory mode word (0o40755). -/
theorem fileinfo_classification_agrees_witness :
    (((statsToFileInfo "f".toList ⟨16877, 4096, 0, 0, 7, 9⟩ none).isDirectory
        = (attrsToFileInfo "f".toList ⟨some 16877, some 4096, some 0, some 0,
            some 7, some 9⟩ none).isDirectory
      ∧ (statsToFileInfo "f".toList ⟨16877, 4096, 0, 0, 7, 9⟩ none).isFile
        = (attrsToFileInfo "f".toList ⟨some 16877, some 4096, some 0, some 0,
            some 7, some 9⟩ none).isFile
      ∧ (statsToFileInfo "f".toList ⟨16877, 4096, 0, 0, 7, 9⟩ none).isSymbolicLink
        = (attrsToFileInfo "f".toList ⟨some 16877, some 4096, some 0, some 0,
            some 7, some 9⟩ none).isSymbolicLink))
    ∧ (statsToFileInfo "f".toList ⟨16877, 4096, 0, 0, 7, 9⟩ none).isDirectory.toNat
        + (statsToFileInfo "f".toList ⟨16877, 4096, 0, 0, 7, 9⟩ none).isFile.toNat
        + (statsToFileInfo "f".toList ⟨16877, 4096, 0, 0, 7, 9⟩ none).isSymbolicLink.toNat
        = 1 :=
  ⟨(fileinfo_classification_agrees "f".toList none ⟨16877, 4096, 0, 0, 7, 9⟩
      ⟨some 16877, some 4096, some 0, some 0, some 7, some 9⟩ rfl).1,
   (fileinfo_classification_agrees "f".toList none ⟨16877, 4096, 0, 0, 7, 9⟩
      ⟨some 16877, some 4096, some 0, some 0, some 7, some 9⟩ rfl).2
     (Or.inl (by decide))⟩

/-! ### `mkdir` with recursion (`SFTPOperations.mkdir` / `mkdirRecursive`)

The remote SFTP server is modelled as the set (insertion-ordered list) of
existing paths: `stat` succeeds iff the path is present, and the server's
`mkdir` adds the path, answering the generic `Failure` response — the one
the code tolerates — when it already exists. -/

/-- `remotePath.split('/').filter(Boolean)` — split on slashes, dropping
empty segments; the accumulator holds the current segment reversed. -/
def splitSlashAux : Str → Str → List Str
  | [], acc => if acc.isEmpty then [] else [acc.reverse]
  | c :: rest, acc =>
      if c == '/' then
        if acc.isEmpty then splitSlashAux rest []
        else acc.reverse :: splitSlashAux rest []
      else splitSlashAux rest (c :: acc)

/-- Path segmentation used by `mkdirRecursive`. -/
def splitSlash (s : Str) : List Str := splitSlashAux s []

/-- One step of the cumulative-prefix construction:
`currentPath === '.' ? part : currentPath + '/' + part`. -/
def stepPath (cur part : Str) : Str :=
  if cur == ".".toList then part else cur ++ '/' :: part

/-- The successive `currentPath` values the `mkdirRecursive` loop visits. -/
def chainPaths (cur : Str) : List Str → List Str
  | [] => []
  | part :: rest => stepPath cur part :: chainPaths (stepPath cur part) rest

/-- The modelled server `mkdir`: `Failure` when the path exists, otherwise
the path is added. -/
def serverMkdir (fs : List Str) (p : Str) : Option Str × List Str :=
  if p ∈ fs then (some "Failure".toList, fs) else (none, fs ++ [p])

/-- The loop body of `SFTPOperations.mkdirRecursive` (`src/SFTPOperations.ts`
lines 188-204): for each cumulative prefix, `stat` it; when the stat fails
(path absent) issue `sftp.mkdir`, tolerating the `Failure` response.
Returns the final filesystem and the list of `mkdir` calls issued. -/
def mkdirRecursiveGo (fs : List Str) (cur : Str) :
    List Str → List Str × List Str
  | [] => (fs, [])
  | part :: rest =>
      let next := stepPath cur part
      if next ∈ fs then mkdirRecursiveGo fs next rest
      else
        let fs1 := (serverMkdir fs next).2
        let r := mkdirRecursiveGo fs1 next rest
        (r.1, next :: r.2)

/-- `SFTPOperations.mkdirRecursive` (`src/SFTPOperations.ts` lines 179-207):
split the path, seed `currentPath` with `''` for absolute paths and `'.'`
otherwise, then walk the prefixes. -/
def mkdirRecursive (fs : List Str) (remotePath : Str) :
    List Str × List Str :=
  mkdirRecursiveGo fs
    (if startsW ['/'] remotePath then [] else ".".toList)
    (splitSlash remotePath)

/-- Result of a modelled `mkdir` call: the error (if any), the filesystem
afterwards, and the `sftp.mkdir` calls issued. -/
structure MkdirResult where
  err : Option Str
  fs : List Str
  calls : List Str
  deriving Repr, DecidableEq

/-- `SFTPOperations.mkdir` (`src/SFTPOperations.ts` lines 151-174): the
recursive flag dispatches to `mkdirRecursive` (which, against the modelled
server, only ever meets the tolerated `Failure` response and hence cannot
reject); the non-recursive branch delegates a single `sftp.mkdir`,
propagating its failure with a descriptive message. -/
def mkdirModel (fs : List Str) (remotePath : Str) (recursive : Bool) :
    MkdirResult :=
  if recursive then
    let r := mkdirRecursive fs remotePath
    ⟨none, r.1, r.2⟩
  else
    match serverMkdir fs remotePath with
    | (some m, fs') =>
        ⟨some ("Failed to create directory: ".toList ++ m), fs', [remotePath]⟩
    | (none, fs') => ⟨none, fs', [remotePath]⟩

theorem mkdirGo_mono_chain :
    ∀ (parts : List Str) (cur : Str) (fs : List Str),
      (∀ x ∈ fs, x ∈ (mkdirRecursiveGo fs cur parts).1)
      ∧ (∀ q ∈ chainPaths cur parts, q ∈ (mkdirRecursiveGo fs cur parts).1) := by
  intro parts
  induction parts with
  | nil =>
    intro cur fs
    exact ⟨fun x hx => by simpa [mkdirRecursiveGo] using hx, by simp [chainPaths]⟩
  | cons part rest ih =>
    intro cur fs
    simp only [mkdirRecursiveGo, chainPaths]
    by_cases hmem : stepPath cur part ∈ fs
    · simp only [if_pos hmem]
      obtain ⟨m1, m2⟩ := ih (stepPath cur part) fs
      refine ⟨m1, fun q hq => ?_⟩
      rcases List.mem_cons.mp hq with hq | hq
      · exact hq ▸ m1 _ hmem
      · exact m2 q hq
    · simp only [if_neg hmem]
      have hfs1 : (serverMkdir fs (stepPath cur part)).2
          = fs ++ [stepPath cur part] := by
        simp [serverMkdir, hmem]
      obtain ⟨m1, m2⟩ :=
        ih (stepPath cur part) (serverMkdir fs (stepPath cur part)).2
      refine ⟨fun x hx => m1 x ?_, fun q hq => ?_⟩
      · rw [hfs1]
        exact List.mem_append_left _ hx
      · rcases List.mem_cons.mp hq with hq | hq
        · subst hq
          exact m1 _ (by rw [hfs1]; simp)
        · exact m2 q hq

theorem mkdirGo_skip :
    ∀ (parts : List Str) (cur : Str) (fs : List Str),
      (∀ q ∈ chainPaths cur parts, q ∈ fs) →
      mkdirRecursiveGo fs cur parts = (fs, []) := by
  intro parts
  induction parts with
  | nil => intro cur fs _; rfl
  | cons part rest ih =>
    intro cur fs h
    have hmem : stepPath cur part ∈ fs := h _ (by simp [chainPaths])
    simp only [mkdirRecursiveGo, if_pos hmem]
    exact ih (stepPath cur part) fs fun q hq => h q (by simp [chainPaths, hq])

/-- C8: `mkdir(path, {recursive: true})` run twice in succession — the
second call on the filesystem state left by the first — succeeds both
times, and the second call issues no `sftp.mkdir` at all (every cumulative
prefix now exists, so each stat succeeds) and leaves the filesystem
unchanged. -/
theorem mkdir_recursive_idempotent (fs : List Str) (remotePath : Str) :
    (mkdirModel fs remotePath true).err = none
    ∧ (mkdirModel (mkdirModel fs remotePath true).fs remotePath true).err = none
    ∧ (mkdirModel (mkdirModel fs remotePath true).fs remotePath true).calls = []
    ∧ (mkdirModel (mkdirModel fs remotePath true).fs remotePath true).fs
        = (mkdirModel fs remotePath true).fs := by
  have hall := (mkdirGo_mono_chain (splitSlash remotePath)
    (if startsW ['/'] remotePath then [] else ".".toList) fs).2
  have hskip := mkdirGo_skip (splitSlash remotePath)
    (if startsW ['/'] remotePath then [] else ".".toList)
    (mkdirRecursiveGo fs
      (if startsW ['/'] remotePath then [] else ".".toList)
      (splitSlash remotePath)).1
    hall
  have hT : (true = true) = True := by simp
  simp only [mkdirModel, mkdirRecursive, hT, if_true]
  rw [hskip]
  exact ⟨trivial, trivial, rfl, rfl⟩

/-! ### Recursive removal (`SFTPOperations.remove` / `removeRecursive`)

The remote directory tree under a path is embedded as a nested tree; the
removal code is embedded as the sequence of `unlink` / `rmdir` operations it
issues, in order.  A directory listing is the tree's entry list in listing
order. -/

mutual
/-- A remote filesystem node: a plain file or a directory with its listing. -/
inductive RNode where
  | file : RNode
  | dir (entries : REntries) : RNode

/-- A directory listing in listing order. -/
inductive REntries where
  | nil : REntries
  | cons (name : Str) (node : RNode) (rest : REntries) : REntries
end

/-- `` `${remotePath}/${entry.filename}` `` — the child path built by the
recursion. -/
def childPath (p name : Str) : Str := p ++ '/' :: name

/-- A single SFTP operation issued by the removal code. -/
inductive FsOp where
  | unlinkOp (p : Str)
  | rmdirOp (p : Str)
  deriving Repr, DecidableEq

/-- The path an operation acts on. -/
def opPath : FsOp → Str
  | .unlinkOp p => p
  | .rmdirOp p => p

/-- The operations `removeRecursive` issues for the entries of the directory
at `p` (`src/SFTPOperations.ts` lines 282-290): entries are processed in
listing order; a directory entry is recursively emptied and then removed, a
file entry is unlinked. -/
def entryOps (p : Str) : REntries → List FsOp
  | .nil => []
  | .cons name .file rest => .unlinkOp (childPath p name) :: entryOps p rest
  | .cons name (.dir es) rest =>
      (entryOps (childPath p name) es ++ [.rmdirOp (childPath p name)])
        ++ entryOps p rest

/-- `SFTPOperations.removeRecursive` (`src/SFTPOperations.ts` lines
276-293): process the listing, then remove the now-empty directory. -/
def removeRecursiveOps (p : Str) (es : REntries) : List FsOp :=
  entryOps p es ++ [.rmdirOp p]

/-- `SFTPOperations.remove` (`src/SFTPOperations.ts` lines 248-271) as the
operation sequence it issues after the initial stat: a directory goes
through `removeRecursive` when `recursive` is set and a plain `rmdir`
otherwise; anything else is unlinked. -/
def removeOps (p : Str) (node : RNode) (recursive : Bool) : List FsOp :=
  match node with
  | .dir es => if recursive then removeRecursiveOps p es else [.rmdirOp p]
  | .file => [.unlinkOp p]

/-- The paths of a subtree's entries in preorder (parent before children) —
the spec-side inventory of what must be gone after a recursive removal. -/
def prePaths (p : Str) : REntries → List Str
  | .nil => []
  | .cons name .file rest => childPath p name :: prePaths p rest
  | .cons name (.dir es) rest =>
      (childPath p name :: prePaths (childPath p name) es) ++ prePaths p rest

/-- The names of a listing, in order. -/
def entryNames : REntries → List Str
  | .nil => []
  | .cons name _ rest => name :: entryNames rest

mutual
/-- Realizability of a node's listings: see `validE`. -/
def validN : RNode → Bool
  | .file => true
  | .dir es => validE es

/-- Realizability of a listing as a filesystem listing: names contain no
slash and are pairwise distinct at each level, recursively. -/
def validE : REntries → Bool
  | .nil => true
  | .cons name node rest =>
      !name.contains '/' && !(entryNames rest).contains name
        && validN node && validE rest
end

/-- `r` lies strictly under the directory path `q`. -/
def strictUnder (q r : Str) : Prop := ∃ s : Str, r = q ++ '/' :: s

/-- Ordering discipline between two operations: a directory removal is
never followed by an operation on a path strictly under it (so every
directory is empty when removed). -/
def RmRel (a b : FsOp) : Prop :=
  ∀ q, a = .rmdirOp q → ¬ strictUnder q (opPath b)

/-- C5 counterexample: in the listing `[a (file), b (directory)]` of `d`,
the file `d/a` is unlinked first and the subdirectory `d/b` removed after
it — entries are processed in listing order, not subdirectories first. -/
theorem remove_subdirs_before_files_cex :
    removeOps "d".toList
        (.dir (.cons "a".toList .file (.cons "b".toList (.dir .nil) .nil))) true
      = [.unlinkOp "d/a".toList, .rmdirOp "d/b".toList, .rmdirOp "d".toList]
    ∧ List.findIdx (fun o => o == .unlinkOp "d/a".toList)
        (removeOps "d".toList
          (.dir (.cons "a".toList .file (.cons "b".toList (.dir .nil) .nil)))
          true) = 0
    ∧ List.findIdx (fun o => o == .rmdirOp "d/b".toList)
        (removeOps "d".toList
          (.dir (.cons "a".toList .file (.cons "b".toList (.dir .nil) .nil)))
          true) = 1 := by
  decide

theorem strictUnder_length {a b : Str} (h : strictUnder a b) :
    a.length < b.length := by
  obtain ⟨s, rfl⟩ := h
  simp

theorem strictUnder_trans {a b c : Str} (h1 : strictUnder a b)
    (h2 : strictUnder b c) : strictUnder a c := by
  obtain ⟨s, rfl⟩ := h1
  obtain ⟨t, rfl⟩ := h2
  exact ⟨s ++ '/' :: t, by simp⟩

theorem slashSplit : ∀ (a b x y : Str), '/' ∉ a → '/' ∉ b →
    a ++ '/' :: x = b ++ '/' :: y → a = b ∧ x = y := by
  intro a
  induction a with
  | nil =>
    intro b x y _ hb h
    cases b with
    | nil => simpa using h
    | cons d bs =>
      rw [List.nil_append] at h
      have hd : '/' = d := (List.cons.injEq _ _ _ _ ▸ h).1
      exact absurd (hd ▸ List.mem_cons_self d bs) hb
  | cons c as ih =>
    intro b x y ha hb h
    cases b with
    | nil =>
      rw [List.nil_append] at h
      have hc : c = '/' := (List.cons.injEq _ _ _ _ ▸ h).1
      exact absurd (hc ▸ List.mem_cons_self c as) ha
    | cons d bs =>
      rw [List.cons_append, List.cons_append] at h
      obtain ⟨hcd, htl⟩ := List.cons.injEq _ _ _ _ ▸ h
      obtain ⟨h1, h2⟩ := ih bs x y (fun hm => ha (List.mem_cons_of_mem c hm))
        (fun hm => hb (List.mem_cons_of_mem d hm)) htl
      exact ⟨by rw [hcd, h1], h2⟩

theorem entryOps_under : ∀ (es : REntries) (p : Str) (o : FsOp),
    o ∈ entryOps p es → strictUnder p (opPath o)
  | .nil, p, o, h => by simp [entryOps] at h
  | .cons name .file rest, p, o, h => by
    rw [entryOps] at h
    rcases List.mem_cons.mp h with h | h
    · subst h
      exact ⟨name, rfl⟩
    · exact entryOps_under rest p o h
  | .cons name (.dir es2) rest, p, o, h => by
    rw [entryOps] at h
    rcases List.mem_append.mp h with h | h
    · rcases List.mem_append.mp h with h | h
      · exact strictUnder_trans ⟨name, rfl⟩
          (entryOps_under es2 (childPath p name) o h)
      · rw [List.mem_singleton] at h
        subst h
        exact ⟨name, rfl⟩
    · exact entryOps_under rest p o h

theorem entryOps_shape : ∀ (es : REntries) (p : Str) (o : FsOp),
    validE es = true → o ∈ entryOps p es →
    ∃ name t, name ∈ entryNames es ∧ '/' ∉ name
      ∧ opPath o = p ++ '/' :: (name ++ t)
      ∧ (t = [] ∨ ∃ u, t = '/' :: u)
  | .nil, p, o, _, h => by simp [entryOps] at h
  | .cons name .file rest, p, o, hv, h => by
    rw [validE] at hv
    simp only [Bool.and_eq_true] at hv
    obtain ⟨⟨⟨hn, _⟩, _⟩, hvr⟩ := hv
    have hn' : '/' ∉ name := by simpa using hn
    rw [entryOps] at h
    rcases List.mem_cons.mp h with h | h
    · subst h
      exact ⟨name, [], by simp [entryNames], hn',
        by simp [opPath, childPath], Or.inl rfl⟩
    · obtain ⟨n2, t, hmem, hsf, heq, ht⟩ := entryOps_shape rest p o hvr h
      exact ⟨n2, t, by simp [entryNames, hmem], hsf, heq, ht⟩
  | .cons name (.dir es2) rest, p, o, hv, h => by
    rw [validE] at hv
    simp only [Bool.and_eq_true] at hv
    obtain ⟨⟨⟨hn, _⟩, _⟩, hvr⟩ := hv
    have hn' : '/' ∉ name := by simpa using hn
    rw [entryOps] at h
    rcases List.mem_append.mp h with h | h
    · rcases List.mem_append.mp h with h | h
      · obtain ⟨u, hu⟩ := entryOps_under es2 (childPath p name) o h
        exact ⟨name, '/' :: u, by simp [entryNames], hn',
          by simp [hu, childPath], Or.inr ⟨u, rfl⟩⟩
      · rw [List.mem_singleton] at h
        subst h
        exact ⟨name, [], by simp [entryNames], hn',
          by simp [opPath, childPath], Or.inl rfl⟩
    · obtain ⟨n2, t, hmem, hsf, heq, ht⟩ := entryOps_shape rest p o hvr h
      exact ⟨n2, t, by simp [entryNames, hmem], hsf, heq, ht⟩

theorem cross_not_under (p name tq name2 tb : Str)
    (hn : '/' ∉ name) (hn2 : '/' ∉ name2) (hne : name ≠ name2)
    (htq : tq = [] ∨ ∃ u, tq = '/' :: u) (htb : tb = [] ∨ ∃ u, tb = '/' :: u)
    (h : strictUnder (p ++ '/' :: (name ++ tq)) (p ++ '/' :: (name2 ++ tb))) :
    False := by
  obtain ⟨s, hs⟩ := h
  have hs' : name2 ++ tb = name ++ (tq ++ '/' :: s) := by
    have : p ++ '/' :: (name2 ++ tb) = p ++ '/' :: (name ++ (tq ++ '/' :: s)) := by
      rw [hs]
      simp
    simpa using this
  rcases htb with rfl | ⟨u, rfl⟩
  · rw [List.append_nil] at hs'
    have : '/' ∈ name2 := by
      rw [hs']
      simp
    exact hn2 this
  · rcases htq with rfl | ⟨v, rfl⟩
    · rw [List.nil_append] at hs'
      exact hne (slashSplit name2 name u s hn2 hn hs').1.symm
    · have hs'' : name2 ++ '/' :: u = name ++ '/' :: (v ++ '/' :: s) := by
        rw [hs']
        simp
      exact hne (slashSplit name2 name u (v ++ '/' :: s) hn2 hn hs'').1.symm

theorem entryOps_pairwise : ∀ (es : REntries) (p : Str),
    validE es = true → List.Pairwise RmRel (entryOps p es)
  | .nil, p, _ => by simp [entryOps]
  | .cons name .file rest, p, hv => by
    rw [validE] at hv
    simp only [Bool.and_eq_true] at hv
    obtain ⟨⟨⟨_, _⟩, _⟩, hvr⟩ := hv
    rw [entryOps]
    refine List.Pairwise.cons ?_ (entryOps_pairwise rest p hvr)
    intro b _ q habs
    exact absurd habs (by simp)
  | .cons name (.dir es2) rest, p, hv => by
    rw [validE] at hv
    simp only [Bool.and_eq_true] at hv
    obtain ⟨⟨⟨hn, hnm⟩, hv2⟩, hvr⟩ := hv
    have hn' : '/' ∉ name := by simpa using hn
    have hnm' : name ∉ entryNames rest := by simpa using hnm
    rw [validN] at hv2
    rw [entryOps, List.pairwise_append]
    refine ⟨?_, entryOps_pairwise rest p hvr, ?_⟩
    · rw [List.pairwise_append]
      refine ⟨entryOps_pairwise es2 (childPath p name) hv2, by simp, ?_⟩
      intro a ha b hb q haq hun
      rw [List.mem_singleton] at hb
      subst hb
      have h1 : strictUnder (childPath p name) q := by
        have := entryOps_under es2 (childPath p name) a ha
        rwa [haq] at this
      have l1 := strictUnder_length h1
      have l2 := strictUnder_length hun
      simp [opPath] at l2
      omega
    · intro a ha b hb q haq hun
      obtain ⟨name2, tb, hmem2, hn2, hbeq, htb⟩ :=
        entryOps_shape rest p b hvr hb
      have hne : name ≠ name2 := fun he => hnm' (he ▸ hmem2)
      have hq : q = childPath p name ∨ strictUnder (childPath p name) q := by
        rcases List.mem_append.mp ha with ha | ha
        · right
          have := entryOps_under es2 (childPath p name) a ha
          rwa [haq] at this
        · left
          rw [List.mem_singleton] at ha
          subst ha
          injection haq with hcq
          exact hcq.symm
      rw [hbeq] at hun
      rcases hq with rfl | ⟨w, rfl⟩
      · refine cross_not_under p name [] name2 tb hn' hn2 hne
          (Or.inl rfl) htb ?_
        simpa [childPath] using hun
      · refine cross_not_under p name ('/' :: w) name2 tb hn' hn2 hne
          (Or.inr ⟨w, rfl⟩) htb ?_
        simpa [childPath] using hun

theorem removeRecursiveOps_pairwise (p : Str) (es : REntries)
    (hv : validE es = true) :
    List.Pairwise RmRel (removeRecursiveOps p es) := by
  rw [removeRecursiveOps, List.pairwise_append]
  refine ⟨entryOps_pairwise es p hv, by simp, ?_⟩
  intro a ha b hb q haq hun
  rw [List.mem_singleton] at hb
  subst hb
  have h1 : strictUnder p q := by
    have := entryOps_under es p a ha
    rwa [haq] at this
  have l1 := strictUnder_length h1
  have l2 := strictUnder_length hun
  simp [opPath] at l2
  omega

theorem entryOps_perm : ∀ (es : REntries) (p : Str),
    ((entryOps p es).map opPath).Perm (prePaths p es)
  | .nil, p => by simp [entryOps, prePaths]
  | .cons name .file rest, p => by
    rw [entryOps, prePaths, List.map_cons]
    exact (entryOps_perm rest p).cons _
  | .cons name (.dir es2) rest, p => by
    rw [entryOps, prePaths, List.map_append, List.map_append]
    simp only [List.map_cons, List.map_nil, opPath]
    refine List.Perm.append ?_ (entryOps_perm rest p)
    exact List.perm_append_comm.trans
      ((entryOps_perm es2 (childPath p name)).cons _)

/-- C5 (amended): `remove(path, {recursive: true})` on a directory empties
it depth-first in listing order — each entry is handled in place, a
subdirectory being recursively emptied and then removed, a file being
unlinked — and finally removes the now-empty directory: the issued
operations touch exactly the paths of the subtree (one operation per entry,
plus the root), every directory removal comes after every operation on that
directory's descendants (so each directory is empty when removed), and the
root's removal comes last; a directory without `recursive` gets a plain
`rmdir`, and a non-directory is unlinked. -/
theorem remove_dispatch_and_recursive (p : Str) (es : REntries)
    (hv : validE es = true) :
    ((removeRecursiveOps p es).map opPath).Perm (p :: prePaths p es)
    ∧ (removeRecursiveOps p es).getLast? = some (.rmdirOp p)
    ∧ List.Pairwise RmRel (removeRecursiveOps p es)
    ∧ removeOps p (.dir es) true = removeRecursiveOps p es
    ∧ removeOps p (.dir es) false = [.rmdirOp p]
    ∧ removeOps p .file true = [.unlinkOp p]
    ∧ removeOps p .file false = [.unlinkOp p] := by
  refine ⟨?_, ?_, removeRecursiveOps_pairwise p es hv, rfl, rfl, rfl, rfl⟩
  · rw [removeRecursiveOps, List.map_append]
    simp only [List.map_cons, List.map_nil, opPath]
    exact List.perm_append_comm.trans ((entryOps_perm es p).cons _)
  · rw [removeRecursiveOps]
    exact List.getLast?_concat _

/-- Witness for C5's amended theorem at the listing `[a (file), b (dir)]`. -/
theorem remove_dispatch_and_recursive_witness :
    ((removeRecursiveOps "d".toList
        (.cons "a".toList .file (.cons "b".toList (.dir .nil) .nil))).map
          opPath).Perm
      ("d".toList :: prePaths "d".toList
        (.cons "a".toList .file (.cons "b".toList (.dir .nil) .nil)))
    ∧ (removeRecursiveOps "d".toList
        (.cons "a".toList .file (.cons "b".toList (.dir .nil) .nil))).getLast?
        = some (.rmdirOp "d".toList)
    ∧ List.Pairwise RmRel (removeRecursiveOps "d".toList
        (.cons "a".toList .file (.cons "b".toList (.dir .nil) .nil))) :=
  ⟨(remove_dispatch_and_recursive "d".toList
      (.cons "a".toList .file (.cons "b".toList (.dir .nil) .nil))
      (by decide)).1,
   (remove_dispatch_and_recursive "d".toList
      (.cons "a".toList .file (.cons "b".toList (.dir .nil) .nil))
      (by decide)).2.1,
   (remove_dispatch_and_recursive "d".toList
      (.cons "a".toList .file (.cons "b".toList (.dir .nil) .nil))
      (by decide)).2.2.1⟩

/-! ### Recursive upload (`SFTPOperations.uploadDirectory`)

The local tree is embedded with a per-file transfer outcome (`none` = the
`uploadFile` call succeeds, `some msg` = it throws with that message); the
`mkdir`/`readdir` of each recursive call are modelled as succeeding, so the
`try`/`catch` around a directory entry never fires and leaf failures are the
file outcomes — exactly the situation of the claims.  `Object.assign` on
the error map is merged as list concatenation (paths in a tree are
distinct). -/

mutual
/-- A local filesystem node: a file with its transfer outcome, or a
directory with its listing. -/
inductive LNode where
  | file (outcome : Option Str) : LNode
  | dir (entries : LEntries) : LNode

/-- A local directory listing in `readdirSync` order. -/
inductive LEntries where
  | nil : LEntries
  | cons (name : Str) (node : LNode) (rest : LEntries) : LEntries
end

/-- `TransferResult` of `src/types.ts`; the error record as an association
list. -/
structure TransferResult where
  success : Bool
  transferred : List Str
  failed : List Str
  errors : List (Str × Str)
  deriving Repr, DecidableEq

/-- The entry loop of `SFTPOperations.uploadDirectory`
(`src/SFTPOperations.ts` lines 419-444) with accumulator `acc` (the mutable
`result`): a directory entry recurses with a fresh result and merges the
child's `transferred`/`failed`/`errors` into the parent — the child's
`success` flag is not consulted; a file entry appends to `transferred` on
success, while a throwing transfer is caught, recorded in `failed` and
`errors`, and flips `success` to `false` without stopping the loop. -/
def uploadGo (rp : Str) (acc : TransferResult) : LEntries → TransferResult
  | .nil => acc
  | .cons name (.dir es) rest =>
      let sub := uploadGo (childPath rp name) ⟨true, [], [], []⟩ es
      uploadGo rp
        { acc with transferred := acc.transferred ++ sub.transferred,
                   failed := acc.failed ++ sub.failed,
                   errors := acc.errors ++ sub.errors } rest
  | .cons name (.file none) rest =>
      uploadGo rp
        { acc with transferred := acc.transferred ++ [childPath rp name] } rest
  | .cons name (.file (some m)) rest =>
      uploadGo rp
        { acc with failed := acc.failed ++ [childPath rp name],
                   errors := acc.errors ++ [(childPath rp name, m)],
                   success := false } rest

/-- `SFTPOperations.uploadDirectory` (`src/SFTPOperations.ts` lines
401-447): start from `{success: true, transferred: [], failed: [],
errors: {}}` and process the listing. -/
def uploadDirModel (rp : Str) (es : LEntries) : TransferResult :=
  uploadGo rp ⟨true, [], [], []⟩ es

/-- C2: refuted on the code — uploading a tree whose only failure sits
inside a nested subdirectory merges the child's `failed` list and error map
into the parent but never merges the child's `success` flag, so the parent
returns `success = true` with a non-empty `failed` list. -/
theorem uploadDirectory_nested_failure_keeps_success :
    (uploadDirModel "r".toList
        (.cons "sub".toList
          (.dir (.cons "f".toList (.file (some "boom".toList)) .nil))
          .nil)).success = true
    ∧ (uploadDirModel "r".toList
        (.cons "sub".toList
          (.dir (.cons "f".toList (.file (some "boom".toList)) .nil))
          .nil)).failed = ["r/sub/f".toList]
    ∧ (uploadDirModel "r".toList
        (.cons "sub".toList
          (.dir (.cons "f".toList (.file (some "boom".toList)) .nil))
          .nil)).errors = [("r/sub/f".toList, "boom".toList)] := by
  decide

/-- C6: evaluated at a tree with exactly one failing leaf, nested in a
subdirectory, followed by a healthy sibling: the sibling is still
transferred, the failing leaf is recorded in `failed` and the error map, the
loop is not aborted — but the aggregate `success` flag stays `true`,
contradicting the claim that it is false whenever a leaf fails. -/
theorem uploadDirectory_one_leaf_failure_eval :
    uploadDirModel "r".toList
        (.cons "sub".toList
          (.dir (.cons "bad".toList (.file (some "EACCES".toList)) .nil))
          (.cons "ok".toList (.file none) .nil))
      = ⟨true, ["r/ok".toList], ["r/sub/bad".toList],
          [("r/sub/bad".toList, "EACCES".toList)]⟩ := by
  decide

end SshMcp
